import Mathlib

/-!
Verification of the call-set selection and two-pass trimming logic of
`src/cli/cli_trim.cpp` (the `apitrace trim` subcommand).

The orchestrator (`trim_trace`, `command`'s default application) is embedded
from the source.  The external collaborators that live outside the covered
source file (the `trace::CallSet` range set, the Parser, the Analyzer, the
Writer and `os::String::trimExtension`) are modelled from the specification
at their documented boundary.
-/

set_option autoImplicit false
set_option maxRecDepth 8192

namespace Trim

/-- Modelled from the spec: the call flag set of `trace_model.hpp` (not part of
the covered source), which includes at least the "verbose/uninteresting" flag
(`CALL_FLAG_VERBOSE`) and the "ends current frame" flag
(`CALL_FLAG_END_FRAME`). -/
structure CallFlags where
  verbose : Bool
  endFrame : Bool
deriving DecidableEq

/-- One recorded call of the trace stream: sequence number, thread id and
flags, mirroring the fields of `trace::Call` that `cli_trim.cpp` reads. -/
structure Call where
  no : Nat
  thread_id : Int
  flags : CallFlags
deriving DecidableEq

/-- Extended scan bound: `getLast()` is a finite number, `+infinity` (ALL) or
`-infinity` (NONE), per section 4.1 of the spec. -/
inductive EBound where
  | negInf
  | fin (n : Nat)
  | posInf
deriving DecidableEq

/-- The strict comparison `n > bound` used by the stop condition
`call->no > options->calls.getLast()`: everything exceeds `-infinity`,
nothing exceeds `+infinity`. -/
def natGtBound (n : Nat) : EBound → Bool
  | EBound.negInf => true
  | EBound.fin m => decide (m < n)
  | EBound.posInf => false

/-- Modelled from the spec: `trace::CallSet` of `trace_callset.hpp` (not part
of the covered source).  A set is the NONE sentinel, the ALL sentinel, or an
explicit list of ranges `a` / `a-b` / `a-` (a pair `(a, some b)` is the range
`a-b`, a singleton `a` is `(a, some a)`, and `(a, none)` is the
unbounded-high range `a-`). -/
inductive CallSet where
  | none_
  | all
  | ranges (rs : List (Nat × Option Nat))
deriving DecidableEq

namespace CallSet

/-- Membership of a number in one explicit range. -/
def inRange (n : Nat) (r : Nat × Option Nat) : Bool :=
  decide (r.1 ≤ n) &&
    (match r.2 with
     | some b => decide (n ≤ b)
     | none => true)

/-- Modelled from the spec: `CallSet::contains(number)`; NONE matches nothing,
ALL matches everything, an explicit set matches the union of its ranges. -/
def containsNo : CallSet → Nat → Bool
  | CallSet.none_, _ => false
  | CallSet.all, _ => true
  | CallSet.ranges rs, n => rs.any (inRange n)

/-- The overload `contains(*call)` used for the calls set: membership of the
call's sequence number. -/
def containsCall (s : CallSet) (c : Call) : Bool :=
  s.containsNo c.no

/-- Modelled from the spec: the frame-aware overload
`contains(frameNumber, callFlags)`.  The sets built from explicit range
syntax or the ALL/NONE keywords carry the frequency that matches every flag
combination, so in this model the flags argument does not alter membership. -/
def containsFrame (s : CallSet) (f : Nat) (_flags : CallFlags) : Bool :=
  s.containsNo f

/-- Modelled from the spec: `CallSet::empty()`, true only for a set built from
no ranges and not set to ALL. -/
def empty : CallSet → Bool
  | CallSet.none_ => true
  | CallSet.all => false
  | CallSet.ranges rs => rs.isEmpty

/-- Modelled from the spec: `CallSet::getLast()`, the maximum explicit value,
`+infinity` for ALL (or when some range is unbounded-high), `-infinity` for
NONE. -/
def getLast : CallSet → EBound
  | CallSet.none_ => EBound.negInf
  | CallSet.all => EBound.posInf
  | CallSet.ranges rs =>
    if rs.isEmpty then EBound.negInf
    else if rs.any (fun r => r.2.isNone) then EBound.posInf
    else EBound.fin (rs.foldl (fun m r => max m (r.2.getD r.1)) 0)

end CallSet

/-- The configuration struct `trim_options` of `cli_trim.cpp` (the
`print_callset` int is modelled as a `Bool`; the source only stores 0/1 in
it). -/
structure trim_options where
  calls : CallSet
  frames : CallSet
  dependency_analysis : Bool
  prune_uninteresting : Bool
  output : String
  thread : Int
  print_callset : Bool
deriving DecidableEq

/-- The stop condition shared by both loops of `trim_trace`:
`call->no > options->calls.getLast() || frame > options->frames.getLast()`. -/
def stopCond (o : trim_options) (c : Call) (frame : Nat) : Bool :=
  natGtBound c.no o.calls.getLast || natGtBound frame o.frames.getLast

/-- The pass-1 thread filter:
`options->thread != -1 && call->thread_id != options->thread`. -/
def threadSkip (o : trim_options) (c : Call) : Bool :=
  (o.thread != -1) && (c.thread_id != o.thread)

/-- The pass-1 prune gate:
`options->prune_uninteresting && call->flags & trace::CALL_FLAG_VERBOSE`. -/
def pruneSkip (o : trim_options) (c : Call) : Bool :=
  o.prune_uninteresting && c.flags.verbose

/-- The pass-1 explicit selection test:
`options->calls.contains(*call) || options->frames.contains(frame, call->flags)`. -/
def selMatch (o : trim_options) (c : Call) (frame : Nat) : Bool :=
  o.calls.containsCall c || o.frames.containsFrame frame c.flags

/-- Ghost events tracking the lifetime of parsed call records: `alloc n` when
`p.parse_call()` returns the record with sequence number `n`, `free n` when
`delete call` runs on it. -/
inductive MemEvent where
  | alloc (no : Nat)
  | free (no : Nat)
deriving DecidableEq

/-- Every allocated record is freed before the next allocation and before the
event trace ends: the trace is a sequence of adjacent `alloc n, free n`
pairs. -/
def balanced : List MemEvent → Bool
  | [] => true
  | MemEvent.alloc n :: MemEvent.free m :: rest => n == m && balanced rest
  | _ => false

/-- Result of the pass-1 loop of `trim_trace`: final frame counter, the calls
passed to `analyzer.require`, the calls passed to `analyzer.analyze`, a ghost
log of every `(call, frame)` read before the stop bound, and the ghost memory
events. -/
structure Pass1Out where
  frame : Nat
  req : List Call
  ana : List Call
  log : List (Call × Nat)
  events : List MemEvent
deriving DecidableEq

/-- The pass-1 loop of `trim_trace` (lines 177-222 of `cli_trim.cpp`),
embedded over a stream of parsed calls.  The `goto NEXT` statements of the
thread filter and the prune gate jump straight to the frame bookkeeping,
skipping both the `analyzer.require` and the `analyzer.analyze` steps. -/
def pass1Go (o : trim_options) :
    List Call → Nat → List Call → List Call → List (Call × Nat) →
    List MemEvent → Pass1Out
  | [], frame, req, ana, log, ev => ⟨frame, req, ana, log, ev⟩
  | c :: rest, frame, req, ana, log, ev =>
    if stopCond o c frame then
      ⟨frame, req, ana, log, ev ++ [MemEvent.alloc c.no, MemEvent.free c.no]⟩
    else
      let acc :=
        if threadSkip o c then (req, ana)
        else if pruneSkip o c then (req, ana)
        else
          ((if selMatch o c frame then req ++ [c] else req),
           (if o.dependency_analysis then ana ++ [c] else ana))
      pass1Go o rest (if c.flags.endFrame then frame + 1 else frame)
        acc.1 acc.2 (log ++ [(c, frame)])
        (ev ++ [MemEvent.alloc c.no, MemEvent.free c.no])

/-- Pass 1 started from the loop's initial state (`frame = 0`, nothing
required, nothing analyzed). -/
def pass1 (o : trim_options) (stream : List Call) : Pass1Out :=
  pass1Go o stream 0 [] [] [] []

/-- One `printf` of the `--print-callset` reporting: the four formats used by
the source are `"%d"`, `"-%d"`, `",%d"` and `"-%d\n"`. -/
inductive PrintTok where
  | num (n : Int)
  | dashNum (n : Int)
  | commaNum (n : Int)
  | dashNumNL (n : Int)
deriving DecidableEq

/-- The range-printing state of pass 2: `call_range_first`,
`call_range_last` (ints initialised to -1) and the tokens printed so far. -/
structure PState where
  first : Int
  last : Int
  out : List PrintTok
deriving DecidableEq

/-- The in-loop range-printing step (lines 260-271 of `cli_trim.cpp`), run for
each written call when `--print-callset` is set. -/
def printStep (s : PState) (no : Nat) : PState :=
  if s.first < 0 then
    { first := (no : Int), last := (no : Int),
      out := s.out ++ [PrintTok.num (no : Int)] }
  else if ((no : Int) != s.last + 1) then
    { first := (no : Int), last := (no : Int),
      out := s.out ++ (if s.last != s.first then [PrintTok.dashNum s.last] else [])
                 ++ [PrintTok.commaNum (no : Int)] }
  else
    { s with last := (no : Int) }

/-- The post-loop flush (lines 281-284 of `cli_trim.cpp`): the last open range
is closed with `printf("-%d\n", call_range_last)` when it spans more than one
call. -/
def printFlush (s : PState) : List PrintTok :=
  s.out ++ (if s.last != s.first then [PrintTok.dashNumNL s.last] else [])

/-- Result of the pass-2 loop of `trim_trace`: final frame counter, the calls
written to the output trace, the range-printing state, a ghost log of every
`(call, frame)` read before the stop bound, and the ghost memory events. -/
structure Pass2Out where
  frame : Nat
  written : List Call
  pstate : PState
  log : List (Call × Nat)
  events : List MemEvent
deriving DecidableEq

/-- The pass-2 loop of `trim_trace` (lines 244-279 of `cli_trim.cpp`).  Note
that the early-stop branch breaks without `delete call`, exactly as the
source does. -/
def pass2Go (o : trim_options) (required : List Nat) :
    List Call → Nat → List Call → PState → List (Call × Nat) →
    List MemEvent → Pass2Out
  | [], frame, w, ps, log, ev => ⟨frame, w, ps, log, ev⟩
  | c :: rest, frame, w, ps, log, ev =>
    if stopCond o c frame then
      ⟨frame, w, ps, log, ev ++ [MemEvent.alloc c.no]⟩
    else
      let acc :=
        if required.contains c.no then
          (w ++ [c], if o.print_callset then printStep ps c.no else ps)
        else (w, ps)
      pass2Go o required rest (if c.flags.endFrame then frame + 1 else frame)
        acc.1 acc.2 (log ++ [(c, frame)])
        (ev ++ [MemEvent.alloc c.no, MemEvent.free c.no])

/-- Pass 2 started from the loop's initial state (`frame = 0`, nothing
written, `call_range_first = call_range_last = -1`). -/
def pass2 (o : trim_options) (required : List Nat) (stream : List Call) :
    Pass2Out :=
  pass2Go o required stream 0 [] ⟨-1, -1, []⟩ [] []

/-- The tokens printed by `trim_trace` once pass 2 and the flush are done:
the flush runs only under `--print-callset` (and without it the in-loop
printing never runs either). -/
def pass2Printed (o : trim_options) (required : List Nat)
    (stream : List Call) : List PrintTok :=
  if o.print_callset then printFlush (pass2 o required stream).pstate
  else (pass2 o required stream).pstate.out

/-- Modelled from the spec: the external Analyzer at its contract boundary.
`getRequired` turns the sequence of calls passed to `require` and the
sequence passed to `analyze` into the set (here: list) of required call
numbers — `require` marks a call and its dependency closure, so the result
is an arbitrary function of those two sequences. -/
structure AnalyzerModel where
  getRequired : List Call → List Call → List Nat

/-- The Analyzer instance whose required set is exactly the calls passed to
`require` (what the Analyzer computes when no call has dependencies, and the
assumption stated by the end-to-end claim). -/
def exactAnalyzer : AnalyzerModel :=
  ⟨fun req _ => req.map Call.no⟩

/-- The error messages `trim_trace` writes to standard error, each carrying
the path the source interpolates into the message. -/
inductive ErrMsg where
  | openError (path : String)
  | createError (path : String)
deriving DecidableEq

/-- Modelled from the spec: `os::String::trimExtension` of `os_string.hpp`
(not part of the covered source) — strip the input's extension, i.e. drop
the last `.` and everything after it, leaving the name unchanged when it has
no dot. -/
def trimExtension (s : String) : String :=
  match s.data.reverse.dropWhile (fun c => c != '.') with
  | [] => s
  | _ :: t => ⟨t.reverse⟩

/-- The observable outcome of `trim_trace`: exit code, error messages, calls
written to the output trace, tokens printed to standard output, and the
output path used. -/
structure TrimResult where
  exitCode : Nat
  errors : List ErrMsg
  written : List Call
  printed : List PrintTok
  outputPath : String
deriving DecidableEq

/-- The `trim_trace` function (lines 158-289 of `cli_trim.cpp`).  `parserOk`
and `writerOk` model the success of `p.open(filename)` and
`writer.open(options->output.c_str())`; the stream is the sequence of calls
the Parser yields (twice, thanks to the bookmark).  Note that the
creation-failure message interpolates `filename`, exactly as line 234 of the
source does. -/
def trim_trace (filename : String) (o : trim_options) (A : AnalyzerModel)
    (parserOk writerOk : Bool) (stream : List Call) : TrimResult :=
  if parserOk = false then
    ⟨1, [ErrMsg.openError filename], [], [], o.output⟩
  else
    let p1 := pass1 o stream
    let outPath :=
      if o.output = "" then trimExtension filename ++ "-trim.trace"
      else o.output
    if writerOk = false then
      ⟨1, [ErrMsg.createError filename], [], [], outPath⟩
    else
      let required := A.getRequired p1.req p1.ana
      let p2 := pass2 o required stream
      let printed :=
        if o.print_callset then printFlush p2.pstate else p2.pstate.out
      ⟨0, [], p2.written, printed, outPath⟩

/-- The default-callset application at the end of option parsing
(lines 342-346 of `cli_trim.cpp`): if neither `--calls` nor `--frames` was
set, default to the entire set of calls. -/
def apply_default_callset (o : trim_options) : trim_options :=
  if o.calls.empty && o.frames.empty then { o with calls := CallSet.all }
  else o

/-! ### Rendering of the printed tokens to the text on standard output -/

/-- The decimal digits of a natural number, as printed by `printf("%d", n)`. -/
def natChars (n : Nat) : List Char :=
  (Nat.repr n).data

/-- The characters `printf("%d", i)` produces for an int. -/
def intChars (i : Int) : List Char :=
  (toString i).data

/-- The characters each `printf` of the range printing produces. -/
def tokChars : PrintTok → List Char
  | PrintTok.num i => intChars i
  | PrintTok.dashNum i => '-' :: intChars i
  | PrintTok.commaNum i => ',' :: intChars i
  | PrintTok.dashNumNL i => '-' :: (intChars i ++ ['\n'])

/-- The characters a sequence of print tokens leaves on standard output. -/
def outChars (ts : List PrintTok) : List Char :=
  (ts.map tokChars).flatten

/-- The standard-output text a sequence of print tokens produces. -/
def renderAll (ts : List PrintTok) : String :=
  ⟨outChars ts⟩

/-- Whether a string ends in a newline character. -/
def endsWithNL (s : String) : Bool :=
  s.data.getLast? == some '\n'

/-! ### The claim-side description of the range summary -/

/-- Maximal contiguous runs, open run `(a, b)` in progress: a new run starts
whenever the next number is not exactly one greater than the previous one. -/
def runsAux (a b : Nat) : List Nat → List (Nat × Nat)
  | [] => [(a, b)]
  | n :: rest =>
    if n = b + 1 then runsAux a n rest else (a, b) :: runsAux n n rest

/-- The maximal contiguous runs of a sequence of emitted call numbers. -/
def runs : List Nat → List (Nat × Nat)
  | [] => []
  | n :: rest => runsAux n n rest

/-- One run rendered the way the claim states it: a single number `n` as `n`,
a longer run as `first-last`. -/
def runStr (p : Nat × Nat) : String :=
  if p.2 = p.1 then Nat.repr p.1 else Nat.repr p.1 ++ "-" ++ Nat.repr p.2

/-- Comma-separated concatenation. -/
def commaSep : List String → String
  | [] => ""
  | [x] => x
  | x :: xs => x ++ "," ++ commaSep xs

/-- The comma-separated maximal-contiguous-range summary the claim describes
for a sequence of emitted call numbers. -/
def rangeSummary (l : List Nat) : String :=
  commaSep ((runs l).map runStr)

/-- Whether the final run of the summary spans at least two call numbers. -/
def lastRunSpans : List (Nat × Nat) → Bool
  | [] => false
  | [p] => p.2 != p.1
  | _ :: rest => lastRunSpans rest

/-- The terminating newline of the flush: present exactly when the final run
spans at least two call numbers. -/
def nlSuffix (l : List Nat) : String :=
  if lastRunSpans (runs l) then "\n" else ""

/-- The sequence of call numbers pass 2 writes to the output trace. -/
def emittedNos (o : trim_options) (required : List Nat)
    (stream : List Call) : List Nat :=
  (pass2 o required stream).written.map Call.no

/-- The characters of the open-run remainder of the printed summary, once the
start of the first (open) run has already been printed: close each run with
`-last` when it spans, start the next with `,first`, and end the very last
spanning run with `-last` plus the terminating newline. -/
def tailChars : List (Nat × Nat) → List Char
  | [] => []
  | [p] => if p.2 = p.1 then [] else '-' :: (natChars p.2 ++ ['\n'])
  | p :: q :: rest =>
    (if p.2 = p.1 then [] else '-' :: natChars p.2) ++
      ',' :: natChars q.1 ++ tailChars (q :: rest)

/-! ### Further claim-side predicates -/

/-- The claim-side requirement condition of pass 1: the call passes the
thread filter, passes the prune gate, and its number matches the calls set
or its frame (with its flags) matches the frames set. -/
def require_cond (o : trim_options) (c : Call) (frame : Nat) : Bool :=
  !threadSkip o c && (!pruneSkip o c && selMatch o c frame)

/-- Frame annotation determined by the flags alone: each call is paired with
the running frame counter, which advances exactly on the end-frame flag. -/
def withFrames (f : Nat) : List Call → List (Call × Nat)
  | [] => []
  | c :: rest => (c, f) :: withFrames (if c.flags.endFrame then f + 1 else f) rest

/-! ### Concrete inputs used to evaluate the code on specific scenarios -/

/-- Options with an explicit calls range `0-1` and an explicit frames range
`0-2`. -/
def exC1opts : trim_options :=
  ⟨CallSet.ranges [(0, some 1)], CallSet.ranges [(0, some 2)], false, false,
    "", -1, false⟩

/-- Four calls numbered 0-3 on thread 0, no flags. -/
def exC1stream : List Call :=
  [⟨0, 0, ⟨false, false⟩⟩, ⟨1, 0, ⟨false, false⟩⟩,
   ⟨2, 0, ⟨false, false⟩⟩, ⟨3, 0, ⟨false, false⟩⟩]

/-- Options with dependency analysis on and a thread filter selecting
thread 1. -/
def exC2opts : trim_options :=
  ⟨CallSet.all, CallSet.all, true, false, "", 1, false⟩

/-- A single call on thread 0 (filtered out by `exC2opts`'s thread filter). -/
def exC2stream : List Call :=
  [⟨0, 0, ⟨false, false⟩⟩]

/-- Options with dependency analysis and pruning on, no thread filter. -/
def exC2popts : trim_options :=
  ⟨CallSet.all, CallSet.all, true, true, "", -1, false⟩

/-- A single call flagged verbose/uninteresting (pruned by `exC2popts`). -/
def exC2pstream : List Call :=
  [⟨0, 0, ⟨true, false⟩⟩]

/-- Two option records agreeing on the calls and frames sets but differing in
thread filter, pruning, dependency analysis, output and printing. -/
def exC4a : trim_options :=
  ⟨CallSet.ranges [(0, some 9)], CallSet.all, false, false, "", -1, false⟩

/-- See `exC4a`: same call sets, every other knob flipped. -/
def exC4b : trim_options :=
  ⟨CallSet.ranges [(0, some 9)], CallSet.all, true, true, "x", 3, true⟩

/-- Four calls with two end-frame flags and varied threads and flags. -/
def exC4stream : List Call :=
  [⟨0, 0, ⟨false, true⟩⟩, ⟨1, 5, ⟨true, false⟩⟩,
   ⟨2, 0, ⟨false, true⟩⟩, ⟨3, 0, ⟨false, false⟩⟩]

/-- Options with an explicit output path, used for the creation-failure
scenario. -/
def exC5opts : trim_options :=
  ⟨CallSet.all, CallSet.all, false, false, "out.trace", -1, false⟩

/-- A single call on thread 0, no flags. -/
def exC5stream : List Call :=
  [⟨0, 0, ⟨false, false⟩⟩]

/-- Options with no calls or frames given: both sets empty (NONE). -/
def exC6empty : trim_options :=
  ⟨CallSet.none_, CallSet.none_, false, false, "", -1, false⟩

/-- Options with `--calls=2-4` given and frames omitted. -/
def exC6given : trim_options :=
  ⟨CallSet.ranges [(2, some 4)], CallSet.none_, false, false, "", -1, false⟩

/-- The end-to-end scenario's options: `--calls=2-4`, frames NONE, no
dependency analysis, no pruning, no thread filter, `--print-callset`. -/
def exC7opts : trim_options :=
  ⟨CallSet.ranges [(2, some 4)], CallSet.none_, false, false, "out.trace",
    -1, true⟩

/-- Ten calls numbered 0-9 on thread 0, no flags. -/
def exC7stream : List Call :=
  [⟨0, 0, ⟨false, false⟩⟩, ⟨1, 0, ⟨false, false⟩⟩, ⟨2, 0, ⟨false, false⟩⟩,
   ⟨3, 0, ⟨false, false⟩⟩, ⟨4, 0, ⟨false, false⟩⟩, ⟨5, 0, ⟨false, false⟩⟩,
   ⟨6, 0, ⟨false, false⟩⟩, ⟨7, 0, ⟨false, false⟩⟩, ⟨8, 0, ⟨false, false⟩⟩,
   ⟨9, 0, ⟨false, false⟩⟩]

/-- Options selecting everything, with `--print-callset`. -/
def exC8opts : trim_options :=
  ⟨CallSet.all, CallSet.all, false, false, "", -1, true⟩

/-- Sixteen calls numbered 0-15 on thread 0, no flags. -/
def exC8stream : List Call :=
  [⟨0, 0, ⟨false, false⟩⟩, ⟨1, 0, ⟨false, false⟩⟩, ⟨2, 0, ⟨false, false⟩⟩,
   ⟨3, 0, ⟨false, false⟩⟩, ⟨4, 0, ⟨false, false⟩⟩, ⟨5, 0, ⟨false, false⟩⟩,
   ⟨6, 0, ⟨false, false⟩⟩, ⟨7, 0, ⟨false, false⟩⟩, ⟨8, 0, ⟨false, false⟩⟩,
   ⟨9, 0, ⟨false, false⟩⟩, ⟨10, 0, ⟨false, false⟩⟩, ⟨11, 0, ⟨false, false⟩⟩,
   ⟨12, 0, ⟨false, false⟩⟩, ⟨13, 0, ⟨false, false⟩⟩, ⟨14, 0, ⟨false, false⟩⟩,
   ⟨15, 0, ⟨false, false⟩⟩]

/-- The required set of the range-printing scenario. -/
def exC8req : List Nat := [5, 6, 7, 10, 11, 15]

/-- Options whose calls set has last call 0, so the stop bound triggers at
call 1. -/
def exC9opts : trim_options :=
  ⟨CallSet.ranges [(0, some 0)], CallSet.all, false, false, "", -1, false⟩

/-- Two calls numbered 0 and 1; call 1 trips the stop bound. -/
def exC9stream : List Call :=
  [⟨0, 0, ⟨false, false⟩⟩, ⟨1, 0, ⟨false, false⟩⟩]

/-- Options selecting everything, with `--print-callset`. -/
def exC10opts : trim_options :=
  ⟨CallSet.all, CallSet.all, false, false, "", -1, true⟩

/-- Seven calls numbered 0-6 on thread 0, no flags. -/
def exC10stream : List Call :=
  [⟨0, 0, ⟨false, false⟩⟩, ⟨1, 0, ⟨false, false⟩⟩, ⟨2, 0, ⟨false, false⟩⟩,
   ⟨3, 0, ⟨false, false⟩⟩, ⟨4, 0, ⟨false, false⟩⟩, ⟨5, 0, ⟨false, false⟩⟩,
   ⟨6, 0, ⟨false, false⟩⟩]

/-! ### Accumulator laws for the two loops -/

theorem pass1Go_append (o : trim_options) (s : List Call) :
    ∀ (frame : Nat) (req ana : List Call) (log : List (Call × Nat))
      (ev : List MemEvent) (req0 ana0 : List Call)
      (log0 : List (Call × Nat)) (ev0 : List MemEvent),
    pass1Go o s frame (req0 ++ req) (ana0 ++ ana) (log0 ++ log) (ev0 ++ ev) =
      { frame := (pass1Go o s frame req ana log ev).frame
        req := req0 ++ (pass1Go o s frame req ana log ev).req
        ana := ana0 ++ (pass1Go o s frame req ana log ev).ana
        log := log0 ++ (pass1Go o s frame req ana log ev).log
        events := ev0 ++ (pass1Go o s frame req ana log ev).events } := by
  induction s with
  | nil =>
    intro frame req ana log ev req0 ana0 log0 ev0
    simp [pass1Go]
  | cons c rest ih =>
    intro frame req ana log ev req0 ana0 log0 ev0
    cases hstop : stopCond o c frame with
    | true => simp [pass1Go, hstop]
    | false =>
      cases ht : threadSkip o c with
      | true =>
        simp only [pass1Go, hstop, ht, Bool.false_eq_true, if_false, if_true,
          List.append_assoc]
        exact ih _ req ana (log ++ [(c, frame)])
          (ev ++ [MemEvent.alloc c.no, MemEvent.free c.no]) req0 ana0 log0 ev0
      | false =>
        cases hp : pruneSkip o c with
        | true =>
          simp only [pass1Go, hstop, ht, hp, Bool.false_eq_true, if_false,
            if_true, List.append_assoc]
          exact ih _ req ana (log ++ [(c, frame)])
            (ev ++ [MemEvent.alloc c.no, MemEvent.free c.no]) req0 ana0 log0 ev0
        | false =>
          cases hs : selMatch o c frame with
          | true =>
            cases hd : o.dependency_analysis with
            | true =>
              simp only [pass1Go, hstop, ht, hp, hs, hd, Bool.false_eq_true,
                if_false, if_true, List.append_assoc]
              exact ih _ (req ++ [c]) (ana ++ [c]) (log ++ [(c, frame)])
                (ev ++ [MemEvent.alloc c.no, MemEvent.free c.no]) req0 ana0 log0 ev0
            | false =>
              simp only [pass1Go, hstop, ht, hp, hs, hd, Bool.false_eq_true,
                if_false, if_true, List.append_assoc]
              exact ih _ (req ++ [c]) ana (log ++ [(c, frame)])
                (ev ++ [MemEvent.alloc c.no, MemEvent.free c.no]) req0 ana0 log0 ev0
          | false =>
            cases hd : o.dependency_analysis with
            | true =>
              simp only [pass1Go, hstop, ht, hp, hs, hd, Bool.false_eq_true,
                if_false, if_true, List.append_assoc]
              exact ih _ req (ana ++ [c]) (log ++ [(c, frame)])
                (ev ++ [MemEvent.alloc c.no, MemEvent.free c.no]) req0 ana0 log0 ev0
            | false =>
              simp only [pass1Go, hstop, ht, hp, hs, hd, Bool.false_eq_true,
                if_false, if_true, List.append_assoc]
              exact ih _ req ana (log ++ [(c, frame)])
                (ev ++ [MemEvent.alloc c.no, MemEvent.free c.no]) req0 ana0 log0 ev0

theorem pass2Go_append (o : trim_options) (required : List Nat) (s : List Call) :
    ∀ (frame : Nat) (w : List Call) (ps : PState) (log : List (Call × Nat))
      (ev : List MemEvent) (w0 : List Call) (log0 : List (Call × Nat))
      (ev0 : List MemEvent),
    pass2Go o required s frame (w0 ++ w) ps (log0 ++ log) (ev0 ++ ev) =
      { frame := (pass2Go o required s frame w ps log ev).frame
        written := w0 ++ (pass2Go o required s frame w ps log ev).written
        pstate := (pass2Go o required s frame w ps log ev).pstate
        log := log0 ++ (pass2Go o required s frame w ps log ev).log
        events := ev0 ++ (pass2Go o required s frame w ps log ev).events } := by
  induction s with
  | nil =>
    intro frame w ps log ev w0 log0 ev0
    simp [pass2Go]
  | cons c rest ih =>
    intro frame w ps log ev w0 log0 ev0
    cases hstop : stopCond o c frame with
    | true => simp [pass2Go, hstop]
    | false =>
      cases hr : required.contains c.no with
      | true =>
        simp only [pass2Go, hstop, hr, Bool.false_eq_true, if_false, if_true,
          List.append_assoc]
        exact ih _ (w ++ [c]) _ (log ++ [(c, frame)])
          (ev ++ [MemEvent.alloc c.no, MemEvent.free c.no]) w0 log0 ev0
      | false =>
        simp only [pass2Go, hstop, hr, Bool.false_eq_true, if_false, if_true,
          List.append_assoc]
        exact ih _ w ps (log ++ [(c, frame)])
          (ev ++ [MemEvent.alloc c.no, MemEvent.free c.no]) w0 log0 ev0

theorem pass1Go_shift (o : trim_options) (s : List Call) (frame : Nat)
    (req ana : List Call) (log : List (Call × Nat)) (ev : List MemEvent) :
    pass1Go o s frame req ana log ev =
      { frame := (pass1Go o s frame [] [] [] []).frame
        req := req ++ (pass1Go o s frame [] [] [] []).req
        ana := ana ++ (pass1Go o s frame [] [] [] []).ana
        log := log ++ (pass1Go o s frame [] [] [] []).log
        events := ev ++ (pass1Go o s frame [] [] [] []).events } := by
  have h := pass1Go_append o s frame [] [] [] [] req ana log ev
  simpa using h

theorem pass2Go_shift (o : trim_options) (required : List Nat) (s : List Call)
    (frame : Nat) (w : List Call) (ps : PState) (log : List (Call × Nat))
    (ev : List MemEvent) :
    pass2Go o required s frame w ps log ev =
      { frame := (pass2Go o required s frame [] ps [] []).frame
        written := w ++ (pass2Go o required s frame [] ps [] []).written
        pstate := (pass2Go o required s frame [] ps [] []).pstate
        log := log ++ (pass2Go o required s frame [] ps [] []).log
        events := ev ++ (pass2Go o required s frame [] ps [] []).events } := by
  have h := pass2Go_append o required s frame [] ps [] [] w log ev
  simpa using h

/-! ### Pass-1 characterizations -/

/-- The calls passed to `analyzer.require` during pass 1 are exactly the
logged calls that satisfy the claim-side requirement condition at the frame
they were read in. -/
theorem pass1Go_req_filter (o : trim_options) :
    ∀ (s : List Call) (frame : Nat),
    (pass1Go o s frame [] [] [] []).req =
      ((pass1Go o s frame [] [] [] []).log.filter
        (fun p => require_cond o p.1 p.2)).map Prod.fst := by
  intro s
  induction s with
  | nil => intro frame; simp [pass1Go]
  | cons c rest ih =>
    intro frame
    cases hstop : stopCond o c frame with
    | true => simp [pass1Go, hstop]
    | false =>
      cases ht : threadSkip o c with
      | true =>
        simp only [pass1Go, hstop, ht, Bool.false_eq_true, if_false, if_true]
        rw [pass1Go_shift]
        simp [require_cond, ht, ih]
      | false =>
        cases hp : pruneSkip o c with
        | true =>
          simp only [pass1Go, hstop, ht, hp, Bool.false_eq_true, if_false,
            if_true]
          rw [pass1Go_shift]
          simp [require_cond, ht, hp, ih]
        | false =>
          cases hs : selMatch o c frame with
          | true =>
            simp only [pass1Go, hstop, ht, hp, hs, Bool.false_eq_true,
              if_false, if_true]
            rw [pass1Go_shift]
            simp [require_cond, ht, hp, hs, ih]
          | false =>
            simp only [pass1Go, hstop, ht, hp, hs, Bool.false_eq_true,
              if_false, if_true]
            rw [pass1Go_shift]
            simp [require_cond, ht, hp, hs, ih]

/-- The ghost log of pass 1 annotates each read call with the frame counter
determined by the end-frame flags alone. -/
theorem pass1Go_log_withFrames (o : trim_options) :
    ∀ (s : List Call) (frame : Nat),
    (pass1Go o s frame [] [] [] []).log =
      withFrames frame ((pass1Go o s frame [] [] [] []).log.map Prod.fst) := by
  intro s
  induction s with
  | nil => intro frame; simp [pass1Go, withFrames]
  | cons c rest ih =>
    intro frame
    cases hstop : stopCond o c frame with
    | true => simp [pass1Go, hstop, withFrames]
    | false =>
      simp only [pass1Go, hstop, Bool.false_eq_true, if_false]
      rw [pass1Go_shift]
      simp only [List.nil_append, List.cons_append, List.map_cons, withFrames,
        List.cons.injEq, true_and]
      exact ih _

/-- The final frame counter of pass 1 counts the end-frame flags among the
logged calls. -/
theorem pass1Go_frame_count (o : trim_options) :
    ∀ (s : List Call) (frame : Nat),
    (pass1Go o s frame [] [] [] []).frame =
      frame + ((pass1Go o s frame [] [] [] []).log.map Prod.fst).countP
        (fun c => c.flags.endFrame) := by
  intro s
  induction s with
  | nil => intro frame; simp [pass1Go]
  | cons c rest ih =>
    intro frame
    cases hstop : stopCond o c frame with
    | true => simp [pass1Go, hstop]
    | false =>
      simp only [pass1Go, hstop, Bool.false_eq_true, if_false]
      rw [pass1Go_shift]
      cases he : c.flags.endFrame with
      | true => simp [ih, he, List.countP_cons]; omega
      | false => simp [ih, he, List.countP_cons]

/-! ### Pass-2 characterizations -/

/-- The ghost logs of the two passes agree whenever the two option records
agree on the calls and frames sets: the log is untouched by the thread
filter, the prune gate, dependency analysis, the required set and the
printing flag. -/
theorem pass1Go_log_eq_pass2Go_log (o o' : trim_options) (required : List Nat)
    (hc : o.calls = o'.calls) (hf : o.frames = o'.frames) :
    ∀ (s : List Call) (frame : Nat) (ps : PState),
    (pass1Go o s frame [] [] [] []).log =
      (pass2Go o' required s frame [] ps [] []).log := by
  intro s
  induction s with
  | nil => intro frame ps; simp [pass1Go, pass2Go]
  | cons c rest ih =>
    intro frame ps
    have hstop2 : stopCond o' c frame = stopCond o c frame := by
      simp [stopCond, hc, hf]
    cases hstop : stopCond o c frame with
    | true =>
      rw [hstop] at hstop2
      simp [pass1Go, pass2Go, hstop, hstop2]
    | false =>
      rw [hstop] at hstop2
      simp only [pass1Go, pass2Go, hstop, hstop2, Bool.false_eq_true, if_false]
      rw [pass1Go_shift, pass2Go_shift]
      simp only [List.nil_append, List.cons_append, List.cons.injEq, true_and]
      exact ih _ _

/-- The final frame counter of pass 2 counts the end-frame flags among the
logged calls. -/
theorem pass2Go_frame_count (o : trim_options) (required : List Nat) :
    ∀ (s : List Call) (frame : Nat) (ps : PState),
    (pass2Go o required s frame [] ps [] []).frame =
      frame + ((pass2Go o required s frame [] ps [] []).log.map Prod.fst).countP
        (fun c => c.flags.endFrame) := by
  intro s
  induction s with
  | nil => intro frame ps; simp [pass2Go]
  | cons c rest ih =>
    intro frame ps
    cases hstop : stopCond o c frame with
    | true => simp [pass2Go, hstop]
    | false =>
      simp only [pass2Go, hstop, Bool.false_eq_true, if_false]
      rw [pass2Go_shift]
      cases he : c.flags.endFrame with
      | true => simp [ih, he, List.countP_cons]; omega
      | false => simp [ih, he, List.countP_cons]

/-- With `--print-callset` set, the final printing state of pass 2 is the
fold of the printing step over the written call numbers. -/
theorem pass2Go_pstate_fold (o : trim_options) (required : List Nat)
    (hpc : o.print_callset = true) :
    ∀ (s : List Call) (frame : Nat) (ps : PState),
    (pass2Go o required s frame [] ps [] []).pstate =
      ((pass2Go o required s frame [] ps [] []).written.map Call.no).foldl
        printStep ps := by
  intro s
  induction s with
  | nil => intro frame ps; simp [pass2Go]
  | cons c rest ih =>
    intro frame ps
    cases hstop : stopCond o c frame with
    | true => simp [pass2Go, hstop]
    | false =>
      cases hr : required.contains c.no with
      | true =>
        simp only [pass2Go, hstop, hr, hpc, Bool.false_eq_true, if_false,
          if_true]
        rw [pass2Go_shift]
        simp [ih]
      | false =>
        simp only [pass2Go, hstop, hr, Bool.false_eq_true, if_false, if_true]
        rw [pass2Go_shift]
        simp [ih]

/-! ### The printing state machine -/

theorem string_data_append (a b : String) : (a ++ b).data = a.data ++ b.data := by
  cases a; cases b; rfl

theorem data_comma : (",").data = [','] := rfl

theorem data_dash : ("-").data = ['-'] := rfl

theorem data_nl : ("\n").data = ['\n'] := rfl

theorem intChars_natCast (n : Nat) : intChars ((n : Nat) : Int) = natChars n := rfl

theorem outChars_nil : outChars [] = [] := rfl

theorem outChars_append (xs ys : List PrintTok) :
    outChars (xs ++ ys) = outChars xs ++ outChars ys := by
  simp [outChars]

theorem not_natCast_lt_zero (a : Nat) : ¬ ((a : Int) < 0) :=
  Int.not_lt.mpr (Int.natCast_nonneg a)

theorem printStep_natCast_eq (a b n : Nat) (out : List PrintTok)
    (h : n = b + 1) :
    printStep ⟨(a : Int), (b : Int), out⟩ n = ⟨(a : Int), (n : Int), out⟩ := by
  subst h
  have h1 : ((((b + 1 : Nat)) : Int) != ((b : Int) + 1)) = false := by
    have h2 : (((b + 1 : Nat)) : Int) = (b : Int) + 1 := by push_cast; ring
    simp [h2]
  simp [printStep, not_natCast_lt_zero a, h1]

theorem printStep_natCast_ne (a b n : Nat) (out : List PrintTok)
    (h : n ≠ b + 1) :
    printStep ⟨(a : Int), (b : Int), out⟩ n =
      ⟨(n : Int), (n : Int),
        out ++ (if b = a then [] else [PrintTok.dashNum (b : Int)]) ++
          [PrintTok.commaNum (n : Int)]⟩ := by
  have hInt : (((n : Nat)) : Int) ≠ (b : Int) + 1 := by
    intro hh
    apply h
    have h3 : (((n : Nat)) : Int) = (((b + 1 : Nat)) : Int) := by push_cast; omega
    exact_mod_cast h3
  by_cases hba : b = a
  · subst hba
    simp [printStep, not_natCast_lt_zero, hInt]
  · have hba2 : ((b : Int)) ≠ ((a : Int)) := by exact_mod_cast hba
    simp [printStep, not_natCast_lt_zero, hInt, hba, hba2]

theorem printFlush_natCast (a b : Nat) (out : List PrintTok) :
    printFlush ⟨(a : Int), (b : Int), out⟩ =
      out ++ (if b = a then [] else [PrintTok.dashNumNL (b : Int)]) := by
  by_cases hba : b = a
  · have h2 : (((b : Int)) != ((a : Int))) = false := by simp [hba]
    simp [printFlush, h2, hba]
  · have h2 : (((b : Int)) != ((a : Int))) = true := by
      have : ((b : Int)) ≠ ((a : Int)) := by exact_mod_cast hba
      simp [this]
    simp [printFlush, h2, hba]

theorem runsAux_head (l : List Nat) : ∀ (a b : Nat),
    ∃ c tl, runsAux a b l = (a, c) :: tl := by
  induction l with
  | nil => intro a b; exact ⟨b, [], rfl⟩
  | cons n rest ih =>
    intro a b
    by_cases h : n = b + 1
    · simpa [runsAux, h] using ih a n
    · exact ⟨b, runsAux n n rest, by simp [runsAux, h]⟩

/-- Invariant of the range-printing loop: with an open run `(a, b)` on the
printing state, folding the remaining emitted numbers and flushing prints
exactly the remainder of the run decomposition. -/
theorem printInv (l : List Nat) : ∀ (a b : Nat) (out : List PrintTok),
    outChars (printFlush (l.foldl printStep ⟨(a : Int), (b : Int), out⟩)) =
      outChars out ++ tailChars (runsAux a b l) := by
  induction l with
  | nil =>
    intro a b out
    rw [List.foldl_nil, printFlush_natCast]
    by_cases hba : b = a
    · simp [hba, tailChars, outChars_append]
    · simp [hba, tailChars, outChars_append, outChars, tokChars,
        intChars_natCast]
  | cons n rest ih =>
    intro a b out
    rw [List.foldl_cons]
    by_cases h : n = b + 1
    · rw [printStep_natCast_eq a b n out h, ih a n out]
      simp [runsAux, h]
    · rw [printStep_natCast_ne a b n out h, ih n n _]
      obtain ⟨c, tl, hrw⟩ := runsAux_head rest n n
      rw [show runsAux a b (n :: rest) = (a, b) :: runsAux n n rest by
        simp [runsAux, h]]
      rw [hrw]
      by_cases hba : b = a
      · simp [hba, tailChars, outChars_append, outChars, tokChars,
          intChars_natCast]
      · simp [hba, tailChars, outChars_append, outChars, tokChars,
          intChars_natCast]

/-- The claim-side comma-separated summary, with its terminating newline,
matches the open-run remainder printed by the loop once the first number has
been printed. -/
theorem commaSep_tail (rs : List (Nat × Nat)) : ∀ (a b : Nat),
    (commaSep (((a, b) :: rs).map runStr)).data ++
      (if lastRunSpans ((a, b) :: rs) then ['\n'] else []) =
      natChars a ++ tailChars ((a, b) :: rs) := by
  induction rs with
  | nil =>
    intro a b
    by_cases hba : b = a
    · simp [commaSep, runStr, lastRunSpans, tailChars, hba, natChars]
    · simp [commaSep, runStr, lastRunSpans, tailChars, hba, natChars,
        string_data_append]
  | cons q tl ih =>
    intro a b
    obtain ⟨c, d⟩ := q
    have hcs : commaSep (((a, b) :: (c, d) :: tl).map runStr) =
        runStr (a, b) ++ "," ++ commaSep (((c, d) :: tl).map runStr) := by
      simp [commaSep]
    have hlast : lastRunSpans ((a, b) :: (c, d) :: tl) =
        lastRunSpans ((c, d) :: tl) := rfl
    have htail : tailChars ((a, b) :: (c, d) :: tl) =
        (if b = a then [] else '-' :: natChars b) ++
          ',' :: natChars c ++ tailChars ((c, d) :: tl) := by
      simp [tailChars]
    have hih := ih c d
    rw [hcs, hlast, htail, string_data_append, string_data_append]
    simp only [List.append_assoc]
    rw [hih]
    by_cases hba : b = a
    · subst hba
      simp [runStr, natChars, data_comma]
    · simp [runStr, hba, natChars, data_comma, data_dash, string_data_append]

theorem data_empty : ("").data = [] := rfl

/-- The full printed output for an emitted sequence: it is the claim-side
range summary followed by the terminating newline exactly when the final run
spans at least two numbers. -/
theorem printAll_chars (l : List Nat) :
    outChars (printFlush (l.foldl printStep ⟨-1, -1, []⟩)) =
      (rangeSummary l).data ++
        (if lastRunSpans (runs l) then ['\n'] else []) := by
  cases l with
  | nil =>
    simp [printFlush, rangeSummary, runs, commaSep, outChars, lastRunSpans,
      data_empty]
  | cons n rest =>
    rw [List.foldl_cons]
    have hstep : printStep ⟨-1, -1, []⟩ n =
        ⟨(n : Int), (n : Int), [PrintTok.num (n : Int)]⟩ := by
      simp [printStep]
    rw [hstep, printInv rest n n [PrintTok.num (n : Int)]]
    have hout : outChars [PrintTok.num (n : Int)] = natChars n := by
      simp [outChars, tokChars, intChars_natCast]
    obtain ⟨c, tl, hrw⟩ := runsAux_head rest n n
    rw [hout, show runs (n :: rest) = runsAux n n rest from rfl, hrw,
      show rangeSummary (n :: rest) =
        commaSep (((n, c) :: tl).map runStr) by
          simp [rangeSummary, runs, hrw]]
    exact (commaSep_tail tl n c).symm

/-- Under `--print-callset`, the text printed by `trim_trace` is the
claim-side comma-separated range summary of the written call numbers, plus
the terminating newline of the flush. -/
theorem printed_eq (o : trim_options) (required : List Nat) (s : List Call)
    (hpc : o.print_callset = true) :
    renderAll (pass2Printed o required s) =
      rangeSummary (emittedNos o required s) ++
        nlSuffix (emittedNos o required s) := by
  have h1 : (pass2 o required s).pstate =
      (emittedNos o required s).foldl printStep ⟨-1, -1, []⟩ :=
    pass2Go_pstate_fold o required hpc s 0 ⟨-1, -1, []⟩
  apply String.ext
  rw [string_data_append]
  simp only [pass2Printed, hpc, if_true, renderAll]
  rw [h1, printAll_chars]
  congr 1
  by_cases hl : lastRunSpans (runs (emittedNos o required s)) = true
  · simp [nlSuffix, hl, data_nl]
  · simp only [Bool.not_eq_true] at hl
    simp [nlSuffix, hl, data_empty]

/-- Without `--print-callset`, pass 2 never touches the printing state. -/
theorem pass2Go_pstate_nopc (o : trim_options) (required : List Nat)
    (hpc : o.print_callset = false) :
    ∀ (s : List Call) (frame : Nat) (ps : PState),
    (pass2Go o required s frame [] ps [] []).pstate = ps := by
  intro s
  induction s with
  | nil => intro frame ps; simp [pass2Go]
  | cons c rest ih =>
    intro frame ps
    cases hstop : stopCond o c frame with
    | true => simp [pass2Go, hstop]
    | false =>
      cases hr : required.contains c.no with
      | true =>
        simp only [pass2Go, hstop, hr, hpc, Bool.false_eq_true, if_false,
          if_true]
        rw [pass2Go_shift]
        simp [ih]
      | false =>
        simp only [pass2Go, hstop, hr, Bool.false_eq_true, if_false, if_true]
        rw [pass2Go_shift]
        simp [ih]

/-! ### The printed summary never contains a newline of its own -/

theorem digitChar_ne_nl (n : Nat) : Nat.digitChar n ≠ '\n' := by
  by_cases h0 : n = 0
  · subst h0; decide
  by_cases h1 : n = 1
  · subst h1; decide
  by_cases h2 : n = 2
  · subst h2; decide
  by_cases h3 : n = 3
  · subst h3; decide
  by_cases h4 : n = 4
  · subst h4; decide
  by_cases h5 : n = 5
  · subst h5; decide
  by_cases h6 : n = 6
  · subst h6; decide
  by_cases h7 : n = 7
  · subst h7; decide
  by_cases h8 : n = 8
  · subst h8; decide
  by_cases h9 : n = 9
  · subst h9; decide
  by_cases h10 : n = 10
  · subst h10; decide
  by_cases h11 : n = 11
  · subst h11; decide
  by_cases h12 : n = 12
  · subst h12; decide
  by_cases h13 : n = 13
  · subst h13; decide
  by_cases h14 : n = 14
  · subst h14; decide
  by_cases h15 : n = 15
  · subst h15; decide
  have hstar : Nat.digitChar n = '*' := by
    unfold Nat.digitChar
    rw [if_neg h0, if_neg h1, if_neg h2, if_neg h3, if_neg h4, if_neg h5,
      if_neg h6, if_neg h7, if_neg h8, if_neg h9, if_neg h10, if_neg h11,
      if_neg h12, if_neg h13, if_neg h14, if_neg h15]
  rw [hstar]
  decide

theorem toDigitsCore_ne_nl :
    ∀ (fuel n : Nat) (acc : List Char), (∀ c ∈ acc, c ≠ '\n') →
    ∀ c ∈ Nat.toDigitsCore 10 fuel n acc, c ≠ '\n' := by
  intro fuel
  induction fuel with
  | zero =>
    intro n acc hacc c hc
    simp only [Nat.toDigitsCore] at hc
    exact hacc c hc
  | succ fuel ih =>
    intro n acc hacc c hc
    simp only [Nat.toDigitsCore] at hc
    by_cases hdiv : n / 10 = 0
    · rw [if_pos hdiv] at hc
      rcases List.mem_cons.mp hc with h | h
      · rw [h]; exact digitChar_ne_nl (n % 10)
      · exact hacc c h
    · rw [if_neg hdiv] at hc
      refine ih (n / 10) (Nat.digitChar (n % 10) :: acc) ?_ c hc
      intro c' hc'
      rcases List.mem_cons.mp hc' with h | h
      · rw [h]; exact digitChar_ne_nl (n % 10)
      · exact hacc c' h

theorem natChars_ne_nl (n : Nat) : ∀ c ∈ natChars n, c ≠ '\n' := by
  have h : natChars n = Nat.toDigitsCore 10 (n + 1) n [] := rfl
  rw [h]
  exact toDigitsCore_ne_nl (n + 1) n [] (by simp)

theorem runStr_ne_nl (p : Nat × Nat) : ∀ c ∈ (runStr p).data, c ≠ '\n' := by
  obtain ⟨a, b⟩ := p
  by_cases h : b = a
  · intro c hc
    simp only [runStr, h, if_pos rfl] at hc
    exact natChars_ne_nl a c hc
  · intro c hc
    simp only [runStr] at hc
    rw [if_neg h] at hc
    rw [string_data_append, string_data_append] at hc
    rcases List.mem_append.mp hc with h1 | h1
    · rcases List.mem_append.mp h1 with h2 | h2
      · exact natChars_ne_nl a c h2
      · rw [data_dash] at h2
        simp at h2
        rw [h2]; decide
    · exact natChars_ne_nl b c h1

theorem commaSep_ne_nl :
    ∀ (xs : List String), (∀ x ∈ xs, ∀ c ∈ x.data, c ≠ '\n') →
    ∀ c ∈ (commaSep xs).data, c ≠ '\n' := by
  intro xs
  induction xs with
  | nil =>
    intro _ c hc
    simp [commaSep, data_empty] at hc
  | cons x xs ih =>
    intro hx c hc
    cases xs with
    | nil =>
      simp only [commaSep] at hc
      exact hx x (by simp) c hc
    | cons y ys =>
      simp only [commaSep] at hc
      rw [string_data_append, string_data_append] at hc
      rcases List.mem_append.mp hc with h1 | h1
      · rcases List.mem_append.mp h1 with h2 | h2
        · exact hx x (by simp) c h2
        · rw [data_comma] at h2
          simp at h2
          rw [h2]; decide
      · refine ih ?_ c h1
        intro x' hx' c' hc'
        exact hx x' (List.mem_cons_of_mem x hx') c' hc'

theorem rangeSummary_ne_nl (l : List Nat) :
    ∀ c ∈ (rangeSummary l).data, c ≠ '\n' := by
  refine commaSep_ne_nl _ ?_
  intro x hx c hc
  rcases List.mem_map.mp hx with ⟨p, _, hpx⟩
  rw [← hpx] at hc
  exact runStr_ne_nl p c hc

/-- A string with no newline characters does not end in a newline. -/
theorem endsWithNL_false_of_ne_nl (s : String)
    (h : ∀ c ∈ s.data, c ≠ '\n') : endsWithNL s = false := by
  rw [endsWithNL]
  cases hg : s.data.getLast? with
  | none => rfl
  | some x =>
    have hx : x ∈ s.data := by
      have hmem : x ∈ s.data.getLast? := by rw [hg]; rfl
      obtain ⟨hne, hxl⟩ := List.mem_getLast?_eq_getLast hmem
      rw [hxl]
      exact List.getLast_mem hne
    have : x ≠ '\n' := h x hx
    simp [this]

/-- Under `--print-callset`, the printed text ends in a newline exactly when
the final contiguous range spans at least two call numbers. -/
theorem endsWithNL_printed (o : trim_options) (required : List Nat)
    (s : List Call) (hpc : o.print_callset = true) :
    endsWithNL (renderAll (pass2Printed o required s)) =
      lastRunSpans (runs (emittedNos o required s)) := by
  rw [printed_eq o required s hpc]
  cases hl : lastRunSpans (runs (emittedNos o required s)) with
  | true =>
    rw [endsWithNL, string_data_append]
    rw [show nlSuffix (emittedNos o required s) = "\n" by simp [nlSuffix, hl]]
    rw [data_nl, List.getLast?_concat]
    rfl
  | false =>
    rw [show nlSuffix (emittedNos o required s) = "" by simp [nlSuffix, hl]]
    refine endsWithNL_false_of_ne_nl _ ?_
    rw [string_data_append, data_empty, List.append_nil]
    exact rangeSummary_ne_nl _

/-- When pass 2 writes nothing, nothing is printed at all. -/
theorem pass2Printed_nil (o : trim_options) (required : List Nat)
    (s : List Call) (hw : (pass2 o required s).written = []) :
    pass2Printed o required s = [] := by
  cases hpc : o.print_callset with
  | false =>
    have h1 : (pass2 o required s).pstate = ⟨-1, -1, []⟩ :=
      pass2Go_pstate_nopc o required hpc s 0 ⟨-1, -1, []⟩
    simp [pass2Printed, hpc, h1]
  | true =>
    have h1 : (pass2 o required s).pstate =
        (emittedNos o required s).foldl printStep ⟨-1, -1, []⟩ :=
      pass2Go_pstate_fold o required hpc s 0 ⟨-1, -1, []⟩
    have h2 : emittedNos o required s = [] := by
      rw [emittedNos, hw]; rfl
    rw [h2] at h1
    simp only [List.foldl_nil] at h1
    simp [pass2Printed, hpc, h1, printFlush]

/-! ### The claims -/

/-- C1: the claim states that both passes break if and only if BOTH the calls
bound and the frames bound are exceeded.  The code breaks as soon as EITHER
is (`||` at lines 183 and 251): on calls 0-3 with calls bound 1 and frames
bound 2 (frame counter stays 0), both passes stop after reading only calls 0
and 1, although the frame bound is not exceeded. -/
theorem trim_C1 :
    (pass1 exC1opts exC1stream).log.map (fun p => p.1.no) = [0, 1] ∧
    (pass2 exC1opts [0, 1] exC1stream).log.map (fun p => p.1.no) = [0, 1] ∧
    natGtBound 2 exC1opts.calls.getLast = true ∧
    natGtBound 0 exC1opts.frames.getLast = false := by
  decide

/-- C2: the claim states that with dependency analysis enabled,
`analyzer.analyze` runs for every call read before the stop bound, including
calls skipped by the thread filter or by pruning.  In the code the
`goto NEXT` of both filters jumps past the `analyze` call: with `--deps` and
a thread filter (or pruning), a skipped call is read (it is in the log) but
never analyzed. -/
theorem trim_C2 :
    exC2opts.dependency_analysis = true ∧
    (pass1 exC2opts exC2stream).log.map (fun p => p.1.no) = [0] ∧
    (pass1 exC2opts exC2stream).ana = [] ∧
    exC2popts.dependency_analysis = true ∧
    (pass1 exC2popts exC2pstream).log.map (fun p => p.1.no) = [0] ∧
    (pass1 exC2popts exC2pstream).ana = [] := by
  decide

/-- C3: in pass 1, the calls handed to `analyzer.require` are exactly the
calls read before the stop bound that pass the thread filter, pass the prune
gate, and whose number is in the calls set or whose current frame (with the
call's flags) is in the frames set. -/
theorem trim_C3 (o : trim_options) (s : List Call) :
    (pass1 o s).req =
      ((pass1 o s).log.filter (fun p => require_cond o p.1 p.2)).map
        Prod.fst :=
  pass1Go_req_filter o s 0

/-- C4: frame bookkeeping is independent of selection filtering.  For any two
option records agreeing on the calls and frames sets, the `(call, frame)`
logs of pass 1 and pass 2 coincide; each logged frame is determined by the
end-frame flags of the preceding calls alone; and the final frame counters of
both passes count the end-frame flags among the scanned calls. -/
theorem trim_C4 (o o' : trim_options) (required : List Nat) (s : List Call)
    (hc : o.calls = o'.calls) (hf : o.frames = o'.frames) :
    (pass1 o s).log = (pass2 o' required s).log ∧
    (pass1 o s).log = withFrames 0 ((pass1 o s).log.map Prod.fst) ∧
    (pass1 o s).frame =
      ((pass1 o s).log.map Prod.fst).countP (fun c => c.flags.endFrame) ∧
    (pass2 o' required s).frame = (pass1 o s).frame := by
  have hlog : (pass1 o s).log = (pass2 o' required s).log :=
    pass1Go_log_eq_pass2Go_log o o' required hc hf s 0 ⟨-1, -1, []⟩
  have hp1 := pass1Go_frame_count o s 0
  have hp2 := pass2Go_frame_count o' required s 0 ⟨-1, -1, []⟩
  refine ⟨hlog, pass1Go_log_withFrames o s 0, by simpa using hp1, ?_⟩
  have hlog2 : (pass2 o' required s).log = (pass1 o s).log := hlog.symm
  rw [show (pass2 o' required s).frame =
      (pass2Go o' required s 0 [] ⟨-1, -1, []⟩ [] []).frame from rfl, hp2]
  rw [show (pass2Go o' required s 0 [] ⟨-1, -1, []⟩ [] []).log =
      (pass2 o' required s).log from rfl, hlog2]
  simpa using hp1.symm

/-- C4 witness: on a concrete stream with two end-frame flags, a thread
filter, pruning and a required set, both passes log the same calls at the
same frames, and the final frame counter is 2. -/
theorem trim_C4_witness :
    (pass1 exC4a exC4stream).log = (pass2 exC4b [1, 2] exC4stream).log ∧
    (pass1 exC4a exC4stream).frame = 2 := by
  have h := trim_C4 exC4a exC4b [1, 2] exC4stream rfl rfl
  exact ⟨h.1, by decide⟩

/-- C5: the claim states that a failed output open is reported with the
offending OUTPUT path.  The code's line 234 interpolates `filename` — the
input path — into the `failed to create` message: with input `in.trace` and
output `out.trace`, the error carries `in.trace`.  The nonzero exit code and
the absence of any written call (output opened only after pass 1) do hold. -/
theorem trim_C5 :
    trim_trace "in.trace" exC5opts exactAnalyzer true false exC5stream =
      ⟨1, [ErrMsg.createError "in.trace"], [], [], "out.trace"⟩ ∧
    ("in.trace" : String) ≠ "out.trace" := by
  exact ⟨by decide, by decide⟩

/-- C6: when both call sets are empty after option parsing, the calls set
defaults to ALL — matching every call number, with `getLast() = +infinity` —
while the frames set is left as it was (empty, NONE); when at least one of
them is non-empty, the options are left untouched. -/
theorem trim_C6 (o : trim_options) :
    (o.calls.empty = true → o.frames.empty = true →
      (apply_default_callset o).calls = CallSet.all ∧
      (∀ n : Nat, (apply_default_callset o).calls.containsNo n = true) ∧
      (apply_default_callset o).calls.getLast = EBound.posInf ∧
      (apply_default_callset o).frames = o.frames ∧
      (apply_default_callset o).frames.empty = true) ∧
    (¬(o.calls.empty = true ∧ o.frames.empty = true) →
      apply_default_callset o = o) := by
  constructor
  · intro hc hf
    have h : (o.calls.empty && o.frames.empty) = true := by rw [hc, hf]; rfl
    refine ⟨?_, fun n => ?_, ?_, ?_, ?_⟩ <;>
      simp [apply_default_callset, h, hc, hf, CallSet.containsNo,
        CallSet.getLast]
  · intro h
    have hb : (o.calls.empty && o.frames.empty) = false := by
      cases hce : o.calls.empty <;> cases hfe : o.frames.empty <;> simp_all
    simp [apply_default_callset, hb]

/-- C6 witness: with both sets omitted the calls set becomes ALL; with
`--calls=2-4` given, nothing is defaulted. -/
theorem trim_C6_witness :
    (apply_default_callset exC6empty).calls = CallSet.all ∧
    apply_default_callset exC6given = exC6given := by
  exact ⟨((trim_C6 exC6empty).1 rfl rfl).1, (trim_C6 exC6given).2 (by decide)⟩

/-- C7: the claim states the end-to-end scenario (calls 0-9, `--calls=2-4`,
frames NONE, no deps/prune/thread filter, required set = the required roots)
writes exactly calls 2,3,4 and prints `2-4`.  The code writes nothing and
prints nothing: frames is NONE, so `frame > frames.getLast()` is already true
at the first call and the `||` stop condition ends both passes immediately. -/
theorem trim_C7 :
    (trim_trace "in.trace" exC7opts exactAnalyzer true true exC7stream).written
      = [] ∧
    (trim_trace "in.trace" exC7opts exactAnalyzer true true exC7stream).printed
      = [] ∧
    (trim_trace "in.trace" exC7opts exactAnalyzer true true exC7stream).exitCode
      = 0 ∧
    natGtBound 0 exC7opts.frames.getLast = true := by
  decide

/-- C8: with `--print-callset`, the printed text is the comma-separated
maximal contiguous ranges of the emitted call numbers — a single number `n`
as `n`, a longer run as `first-last`, the last open range flushed after the
loop (with its terminating newline exactly when it spans); in particular the
summary of `{5,6,7,10,11,15}` is `5-7,10-11,15`. -/
theorem trim_C8 (o : trim_options) (required : List Nat) (s : List Call)
    (hpc : o.print_callset = true) :
    renderAll (pass2Printed o required s) =
      rangeSummary (emittedNos o required s) ++
        nlSuffix (emittedNos o required s) ∧
    rangeSummary [5, 6, 7, 10, 11, 15] = "5-7,10-11,15" :=
  ⟨printed_eq o required s hpc, by decide⟩

/-- C8 witness: on calls 0-15 with required set {5,6,7,10,11,15} the code
prints exactly `5-7,10-11,15`. -/
theorem trim_C8_witness :
    renderAll (pass2Printed exC8opts exC8req exC8stream) = "5-7,10-11,15" := by
  have h := (trim_C8 exC8opts exC8req exC8stream rfl).1
  rw [h]
  decide

/-- C9: the claim states that in both passes every parsed call record is
released on every branch, including the early-stop break.  Pass 1 conforms,
but pass 2's early-stop branch (lines 251-255) breaks without `delete call`:
on a stream 0,1 with calls bound 0, pass 2's event trace ends in an
unmatched allocation. -/
theorem trim_C9 :
    balanced (pass1 exC9opts exC9stream).events = true ∧
    (pass2 exC9opts [] exC9stream).events =
      [MemEvent.alloc 0, MemEvent.free 0, MemEvent.alloc 1] ∧
    balanced (pass2 exC9opts [] exC9stream).events = false := by
  decide

/-- C10: when pass 2 emits no required call, nothing at all is printed (no
`printf` runs, hence not even a newline); and with `--print-callset` the
printed text ends in a newline exactly when the final contiguous range spans
at least two call numbers — so a single-number final range leaves no trailing
newline. -/
theorem trim_C10 (o : trim_options) (required : List Nat) (s : List Call) :
    ((pass2 o required s).written = [] → pass2Printed o required s = []) ∧
    (o.print_callset = true →
      endsWithNL (renderAll (pass2Printed o required s)) =
        lastRunSpans (runs (emittedNos o required s))) :=
  ⟨pass2Printed_nil o required s, endsWithNL_printed o required s⟩

/-- C10 witness: with an empty required set nothing is printed, and with
required set {5} (a single-number final range) the printed text does not end
in a newline. -/
theorem trim_C10_witness :
    pass2Printed exC10opts [] exC10stream = [] ∧
    endsWithNL (renderAll (pass2Printed exC10opts [5] exC10stream)) = false := by
  refine ⟨(trim_C10 exC10opts [] exC10stream).1 (by decide), ?_⟩
  have h := (trim_C10 exC10opts [5] exC10stream).2 rfl
  rw [h]
  decide

end Trim
